import Mathlib

/-!
Verification of the metrics-normalization and resource-association engine of
the K8S_Monitoring dashboard (src/lib/server-actions.ts,
src/app/api/kubectl/namespace-details/route.ts and the cluster route appended
to src/lib/types.ts), as a shallow embedding in Lean 4.

JavaScript numbers are modelled as `Option ℚ` with `none` playing the role of
`NaN`: every arithmetic operation the code performs (integer `parseInt`
results, multiplication by 1000 or 1024, division by 1024, addition) is exact
on dyadic rationals inside the double-precision range, so `ℚ` is a faithful
model of the numeric values actually produced, while `NaN` must be tracked
explicitly because `Number.parseInt` returns it on non-numeric text.
-/

/-- A JavaScript number: `none` is `NaN`, `some q` an exact (dyadic) rational. -/
abbrev JsNum := Option ℚ

/-- JS `+` : `NaN` absorbs. -/
def jsAdd : JsNum → JsNum → JsNum
  | some a, some b => some (a + b)
  | _, _ => none

/-- JS multiplication by a constant: `NaN` propagates. -/
def jsMulNat (a : JsNum) (k : ℕ) : JsNum := a.map (fun q => q * k)

/-- JS division by a nonzero constant: `NaN` propagates. -/
def jsDivNat (a : JsNum) (k : ℕ) : JsNum := a.map (fun q => q / k)

/-- JS `Math.floor`: floor toward negative infinity; `Math.floor(NaN) = NaN`. -/
def jsFloor : JsNum → JsNum
  | some a => some (⌊a⌋ : ℚ)
  | none => none

/-- Decimal value of a list of digit characters, most significant first
(the fold `Number.parseInt` effectively performs on the digit prefix). -/
def digitsVal (l : List Char) : ℕ :=
  l.foldl (fun a c => 10 * a + (c.toNat - 48)) 0

/-- JS whitespace test for the characters that can occur in CLI output. -/
def isWsChar (c : Char) : Bool :=
  c = ' ' || c = '\t' || c = '\n' || c = '\r'

/-- `Number.parseInt(s, 10)`: skip leading whitespace, read an optional sign,
then the longest digit prefix; `NaN` (`none`) when no digit is found. -/
def parseIntJS (s : String) : JsNum :=
  let l := s.data.dropWhile isWsChar
  if l.head? = some '-' then
    let ds := l.tail.takeWhile Char.isDigit
    if ds.isEmpty then none else some (-(digitsVal ds : ℚ))
  else if l.head? = some '+' then
    let ds := l.tail.takeWhile Char.isDigit
    if ds.isEmpty then none else some ((digitsVal ds : ℚ))
  else
    let ds := l.takeWhile Char.isDigit
    if ds.isEmpty then none else some ((digitsVal ds : ℚ))

/-- JS `String.prototype.endsWith`, stated on the character lists so that it
can be reasoned about for abstract strings. -/
def jsEndsWith (s suffix : String) : Bool :=
  suffix.data.isSuffixOf s.data

/-- JS `s.slice(0, -k)` for `k` at most the length: drop the last `k`
characters. -/
def jsDropRight (s : String) (k : ℕ) : String :=
  ⟨s.data.take (s.data.length - k)⟩

/-- JS `s.split(":")[0]`: the longest prefix free of `':'`. -/
def baseName (s : String) : String :=
  ⟨s.data.takeWhile (fun c => c ≠ ':')⟩

/-- CPU field decoding, identical in every parsing routine of the source
(server-actions parsePodMetrics / parseNamespaceMetrics / parseNodeMetrics and
both route files): a trailing `m` is millicores directly, otherwise the value
is whole cores multiplied by 1000. -/
def parseCpu (cpuStr : String) : JsNum :=
  if jsEndsWith cpuStr "m" then parseIntJS (jsDropRight cpuStr 1)
  else jsMulNat (parseIntJS cpuStr) 1000

/-- Memory field decoding as written in src/lib/server-actions.ts
(parsePodMetrics, and inlined identically in parseNamespaceMetrics and
parseNodeMetrics there): `Mi` unchanged, `Gi` times 1024, `Ki` divided by 1024
and floored; any other token leaves the initial value 0. -/
def parseMemSA (memStr : String) : JsNum :=
  if jsEndsWith memStr "Mi" then parseIntJS (jsDropRight memStr 2)
  else if jsEndsWith memStr "Gi" then jsMulNat (parseIntJS (jsDropRight memStr 2)) 1024
  else if jsEndsWith memStr "Ki" then jsFloor (jsDivNat (parseIntJS (jsDropRight memStr 2)) 1024)
  else some 0

/-- Memory field decoding as written in
src/app/api/kubectl/namespace-details/route.ts (parsePodMetrics, and inlined
identically in the parseNodeMetrics of the cluster route appended to
src/lib/types.ts): like `parseMemSA` but with two extra fallback branches, a
trailing `m` treated as bytes divided by 1024 twice, and no recognized suffix
treated as bytes divided by 1024 twice. -/
def parseMemRoute (memStr : String) : JsNum :=
  if jsEndsWith memStr "Mi" then parseIntJS (jsDropRight memStr 2)
  else if jsEndsWith memStr "Gi" then jsMulNat (parseIntJS (jsDropRight memStr 2)) 1024
  else if jsEndsWith memStr "Ki" then jsFloor (jsDivNat (parseIntJS (jsDropRight memStr 2)) 1024)
  else if jsEndsWith memStr "m" then jsDivNat (jsDivNat (parseIntJS (jsDropRight memStr 1)) 1024) 1024
  else jsDivNat (jsDivNat (parseIntJS memStr) 1024) 1024

/-- Accumulator-based splitting of a character list into maximal
whitespace-free words (current word is carried reversed). -/
def wordsAux : List Char → List Char → List (List Char)
  | acc, [] => if acc.isEmpty then [] else [acc.reverse]
  | acc, c :: cs =>
    if isWsChar c then
      if acc.isEmpty then wordsAux [] cs else acc.reverse :: wordsAux [] cs
    else wordsAux (c :: acc) cs

/-- The value of `line.trim().split(/\s+/)` as computed at the top of every
parsing routine: the maximal whitespace-free words of the line. (On an
all-whitespace line JS yields `[""]` where this yields `[]`; both fall below
the 3-token threshold that guards every use, so the behaviours agree.) -/
def tokens (line : String) : List String :=
  (wordsAux [] line.data).map (fun l => ⟨l⟩)

/-- JS `String.prototype.trim`. -/
def jsTrim (s : String) : String :=
  ⟨((s.data.dropWhile isWsChar).reverse.dropWhile isWsChar).reverse⟩

/-- JS `split("\n")` on the character list: `""` yields one empty fragment,
exactly as in JS. -/
def splitNl : List Char → List (List Char)
  | [] => [[]]
  | c :: cs =>
    if c = '\n' then [] :: splitNl cs
    else
      match splitNl cs with
      | [] => [[c]]
      | t :: ts => (c :: t) :: ts

/-- `metricsOutput.trim().split("\n")`, the line decomposition shared by all
parsing routines. -/
def splitLines (s : String) : List String := (splitNl s.data).map (fun l => ⟨l⟩)

/-- One parsed entry of the `Record<string, {cpu, memory}>` built by
parsePodMetrics. -/
structure PodMetric where
  cpu : JsNum
  memory : JsNum
deriving DecidableEq

/-- Assignment `result[podName] = v` on a JS object modelled as an ordered
association list: overwrite an existing key in place, else append. -/
def upsert (m : List (String × PodMetric)) (k : String) (v : PodMetric) :
    List (String × PodMetric) :=
  if m.any (fun p => p.1 = k) then
    m.map (fun p => if p.1 = k then (k, v) else p)
  else m ++ [(k, v)]

/-- The shared line-walking skeleton of both parsePodMetrics implementations:
split into lines, and for every line with at least 3 whitespace-separated
tokens record `{cpu, memory}` under the pod name (first token), decoding the
memory field with the given per-variant decoder. -/
def parsePodMetricsWith (memParse : String → JsNum) (metricsOutput : String) :
    List (String × PodMetric) :=
  (splitLines (jsTrim metricsOutput)).foldl
    (fun result line =>
      match tokens line with
      | podName :: cpuStr :: memStr :: _ =>
          upsert result podName ⟨parseCpu cpuStr, memParse memStr⟩
      | _ => result)
    []

/-- parsePodMetrics of src/lib/server-actions.ts (lines 439-473): memory
decoded by the `Mi`/`Gi`/`Ki`-only rules. -/
def parsePodMetricsSA (metricsOutput : String) : List (String × PodMetric) :=
  parsePodMetricsWith parseMemSA metricsOutput

/-- parsePodMetrics of src/app/api/kubectl/namespace-details/route.ts
(lines 8-48): memory decoded with the additional `m`-suffix and raw-bytes
fallback branches. -/
def parsePodMetricsRoute (metricsOutput : String) : List (String × PodMetric) :=
  parsePodMetricsWith parseMemRoute metricsOutput

/-- parseNamespaceMetrics of src/lib/server-actions.ts (lines 407-436):
running CPU/memory sums over all lines with at least 3 tokens, with the
memory branches of the server-actions variant (inlined in the source,
identical to `parseMemSA`). -/
def parseNamespaceMetrics (metricsOutput : String) : JsNum × JsNum :=
  (splitLines (jsTrim metricsOutput)).foldl
    (fun acc line =>
      match tokens line with
      | _ :: cpuStr :: memStr :: _ =>
          (jsAdd acc.1 (parseCpu cpuStr), jsAdd acc.2 (parseMemSA memStr))
      | _ => acc)
    (some 0, some 0)

/-- Result record of parseNodeMetrics; the totals are the hardcoded
4-core/16Gi-per-node estimates and stay exact naturals. -/
structure NodeTotals where
  cpuUsage : JsNum
  cpuTotal : ℕ
  memoryUsage : JsNum
  memoryTotal : ℕ
deriving DecidableEq

/-- Shared skeleton of both parseNodeMetrics implementations: per valid line,
add the decoded CPU and memory and bump the capacity estimates by 4000
millicores and 16384 mebibytes. -/
def parseNodeMetricsWith (memParse : String → JsNum) (metricsOutput : String) :
    NodeTotals :=
  (splitLines (jsTrim metricsOutput)).foldl
    (fun acc line =>
      match tokens line with
      | _ :: cpuStr :: memStr :: _ =>
          { cpuUsage := jsAdd acc.cpuUsage (parseCpu cpuStr)
            cpuTotal := acc.cpuTotal + 4000
            memoryUsage := jsAdd acc.memoryUsage (memParse memStr)
            memoryTotal := acc.memoryTotal + 16384 }
      | _ => acc)
    ⟨some 0, 0, some 0, 0⟩

/-- parseNodeMetrics of src/lib/server-actions.ts (lines 364-404): memory via
the `Mi`/`Gi`/`Ki`-only branches. -/
def parseNodeMetricsSA (metricsOutput : String) : NodeTotals :=
  parseNodeMetricsWith parseMemSA metricsOutput

/-- parseNodeMetrics of the cluster route appended to src/lib/types.ts
(lines 59-105 of that file): memory with the `m`-suffix and raw-bytes
fallback branches. -/
def parseNodeMetricsRoute (metricsOutput : String) : NodeTotals :=
  parseNodeMetricsWith parseMemRoute metricsOutput

/-! ## The association resolver data model

Shallow embedding of the object shapes that findAssociatedResources,
findAssociatedServices and findAssociatedIngresses actually inspect. JS
truthiness of a string-valued field is modelled by an explicit `≠ ""` guard;
a missing optional object is `Option.none`. -/

/-- The kind tag of a catalog object; in the source each kind arrives in its
own listing (`kubectl get pvc` / `configmap` / `secret`, see
getResourcesForNamespace), so the kind is determined by which listing an
object came from. -/
inductive ResKind where
  | storageClaim
  | configSet
  | secretSet
deriving DecidableEq

/-- One object of a namespace catalog: the code only ever reads
`metadata.name`; the kind records which per-kind listing it belongs to. -/
structure CatalogObject where
  name : String
  kind : ResKind
deriving DecidableEq

/-- One entry of `pod.spec.volumes`, as discriminated by the
`persistentVolumeClaim` / `configMap` / `secret` field tests of
findAssociatedResources; `other` covers volumes with none of the three
fields (emptyDir and friends). -/
inductive VolumeRef where
  | pvc (claimName : String)
  | configMap (name : String)
  | secret (secretName : String)
  | other
deriving DecidableEq

/-- One entry of a container's `env`, as discriminated by the
`valueFrom.configMapKeyRef` / `valueFrom.secretKeyRef` field tests; `plain`
covers literal values and other `valueFrom` shapes. -/
inductive EnvRef where
  | configMapKey (name : String)
  | secretKey (name : String)
  | plain
deriving DecidableEq

/-- A container: the only field the resolver reads is `env`. -/
structure Container where
  env : List EnvRef
deriving DecidableEq

/-- A pod as read by the resolver: name, the optional `metadata.labels`
map (absent maps to `none`; an empty labels object is `some []`, which is
truthy in JS), `spec.volumes` and `spec.containers`. -/
structure Pod where
  name : String
  labels : Option (List (String × String))
  volumes : List VolumeRef
  containers : List Container
deriving DecidableEq

/-- A service as read by findAssociatedServices: `metadata.name`,
`spec.selector` (absent or null maps to `none`; an empty selector object is
`some []`, again truthy in JS) and `spec.ports` (only the `port` numbers are
used). -/
structure Service where
  name : String
  selector : Option (List (String × String))
  ports : List ℕ
deriving DecidableEq

/-- One `http.paths` entry of an ingress rule: the backend service name when
the `path.backend.service.name` chain is present. -/
structure IngressPath where
  backendServiceName : Option String
deriving DecidableEq

/-- One `spec.rules` entry of an ingress: an optional host and its http
paths. -/
structure IngressRule where
  host : Option String
  paths : List IngressPath
deriving DecidableEq

/-- An ingress as read by findAssociatedIngresses. -/
structure Ingress where
  rules : List IngressRule
deriving DecidableEq

/-- `[...new Set(result)]`: de-duplication preserving first occurrences. -/
def dedupFirst (l : List String) : List String :=
  l.foldl (fun acc x => if x ∈ acc then acc else acc ++ [x]) []

/-- JS lookup `labels[key]` on the labels object. -/
def lookupLabel (labels : List (String × String)) (key : String) : Option String :=
  labels.lookup key

/-- The per-volume body of the first forEach of findAssociatedResources: for
a volume naming a (truthy) claim/configMap/secret that exists by name in the
supplied catalog, push that name. -/
def volumeStep (resources : List CatalogObject) (res : List String)
    (v : VolumeRef) : List String :=
  match v with
  | .pvc n => if n ≠ "" ∧ resources.any (fun r => r.name = n) then res ++ [n] else res
  | .configMap n => if n ≠ "" ∧ resources.any (fun r => r.name = n) then res ++ [n] else res
  | .secret n => if n ≠ "" ∧ resources.any (fun r => r.name = n) then res ++ [n] else res
  | .other => res

/-- The per-env-entry body of the second forEach of findAssociatedResources:
push a resolvable `configMapKeyRef`/`secretKeyRef` name not already
present. -/
def envStep (resources : List CatalogObject) (res : List String)
    (e : EnvRef) : List String :=
  match e with
  | .configMapKey n =>
      if n ≠ "" ∧ resources.any (fun r => r.name = n) ∧ n ∉ res then res ++ [n] else res
  | .secretKey n =>
      if n ≠ "" ∧ resources.any (fun r => r.name = n) ∧ n ∉ res then res ++ [n] else res
  | .plain => res

/-- The catalog name a volume reference points at, if any. -/
def volTarget : VolumeRef → Option String
  | .pvc n => some n
  | .configMap n => some n
  | .secret n => some n
  | .other => none

/-- The catalog name an env entry dereferences, if any. -/
def envTarget : EnvRef → Option String
  | .configMapKey n => some n
  | .secretKey n => some n
  | .plain => none

/-- findAssociatedResources (identical in src/lib/server-actions.ts lines
476-525 and src/app/api/kubectl/namespace-details/route.ts lines 71-120):
walk `spec.volumes` pushing the catalog name for each resolvable
volume reference, then walk every container's `env` entries pushing
resolvable `configMapKeyRef` / `secretKeyRef` names not already present,
and de-duplicate. All lookups are by `metadata.name` within the supplied
per-kind catalog. -/
def findAssociatedResources (pod : Pod) (resources : List CatalogObject) :
    List String :=
  let afterVolumes := pod.volumes.foldl (volumeStep resources) []
  let afterEnv := pod.containers.foldl
    (fun res c => c.env.foldl (envStep resources) res) afterVolumes
  dedupFirst afterEnv

/-- The per-kind resolution as performed at the call sites of
getNamespaceDetails / the namespace-details POST handler: the catalog handed
to findAssociatedResources for kind `k` is exactly the listing of the objects
of kind `k` (fetched by a dedicated getResourcesForNamespace call per kind in
the source). -/
def resolveConfigRefs (pod : Pod) (catalog : List CatalogObject) (k : ResKind) :
    List String :=
  findAssociatedResources pod (catalog.filter (fun r => r.kind = k))

/-- The selector test of findAssociatedServices:
`Object.entries(service.spec.selector).every(([key, value]) =>
pod.metadata.labels[key] === value)`. -/
def selectorMatches (selector : List (String × String))
    (labels : List (String × String)) : Bool :=
  selector.all (fun kv => lookupLabel labels kv.1 = some kv.2)

/-- The display formatting applied to a matching service: the bare name when
there are no ports, otherwise `name:port1,port2,...`. -/
def formatService (svc : Service) : String :=
  if svc.ports.length > 0 then
    svc.name ++ ":" ++ String.intercalate "," (svc.ports.map (fun p => Nat.repr p))
  else svc.name

/-- findAssociatedServices (identical in both source files): nothing when the
pod has no labels object; otherwise every service with a present selector
whose entries all match the pod labels, formatted with its ports. -/
def findAssociatedServices (pod : Pod) (services : List Service) : List String :=
  match pod.labels with
  | none => []
  | some labels =>
      services.foldl
        (fun result service =>
          match service.selector with
          | none => result
          | some sel =>
              if selectorMatches sel labels then result ++ [formatService service]
              else result)
        []

/-- The per-path body of the innermost forEach of findAssociatedIngresses:
when the path's backend service name is present, nonempty and among the
stripped base names, push the rule's host if it is present and nonempty. -/
def pathStep (serviceBasenames : List String) (rule : IngressRule)
    (res : List String) (path : IngressPath) : List String :=
  match path.backendServiceName with
  | some b =>
      if b ≠ "" ∧ b ∈ serviceBasenames then
        match rule.host with
        | some h => if h ≠ "" then res ++ [h] else res
        | none => res
      else res
  | none => res

/-- findAssociatedIngresses (identical in both source files): strip the port
suffix from each formatted service string, then for every ingress rule path
whose present, nonempty backend service name is among the stripped base
names, push the rule's host when present and nonempty; de-duplicate. -/
def findAssociatedIngresses (serviceNames : List String)
    (ingresses : List Ingress) : List String :=
  let serviceBasenames := serviceNames.map baseName
  dedupFirst (ingresses.foldl
    (fun res ingress =>
      ingress.rules.foldl
        (fun res rule => rule.paths.foldl (pathStep serviceBasenames rule) res)
        res)
    [])

/-! ## Aggregation and snapshot assembly -/

/-- The normalized quantity pair of the spec (`§3 ResourceQuantity`): CPU in
millicores, memory in mebibytes, both JS numbers. -/
structure ResourceQuantity where
  cpuMillicores : JsNum
  memoryMebibytes : JsNum
deriving DecidableEq

/-- Per-field JS addition of quantities. -/
def ResourceQuantity.add (a b : ResourceQuantity) : ResourceQuantity :=
  ⟨jsAdd a.cpuMillicores b.cpuMillicores, jsAdd a.memoryMebibytes b.memoryMebibytes⟩

/-- The zero quantity, the initial accumulator of every reduce in the
source. -/
def ResourceQuantity.zero : ResourceQuantity := ⟨some 0, some 0⟩

/-- The aggregation of the spec contract: summing a sequence of quantities,
exactly the pair of `pods.reduce((sum, pod) => sum + pod.cpuUsage, 0)` and
`pods.reduce((sum, pod) => sum + pod.memoryUsage, 0)` of the source. -/
def aggregate (l : List ResourceQuantity) : ResourceQuantity :=
  l.foldl ResourceQuantity.add ResourceQuantity.zero

/-- The spec's `toResourceQuantity(rawCpu, rawMemory)` contract: the CPU and
memory field decoding pair applied to each line by parsePodMetrics (the
route-file variant, whose memory decoder carries the byte fallbacks; the
server-actions variant differs only in those fallback branches). -/
def toResourceQuantity (rawCpu rawMemory : String) : ResourceQuantity :=
  ⟨parseCpu rawCpu, parseMemRoute rawMemory⟩

/-- One assembled pod record of the namespace snapshot (the object literal of
getNamespaceDetails lines 304-314 / the POST handler lines 240-250). -/
structure PodRecord where
  id : String
  name : String
  cpuUsage : JsNum
  memoryUsage : JsNum
  pvcs : List String
  configMaps : List String
  secrets : List String
  services : List String
  ingresses : List String
deriving DecidableEq

/-- Assembly of one pod record: metrics defaulted to `{cpu: 0, memory: 0}`
when the pod name is absent from the parsed metrics map
(`podMetricsMap[podName] || { cpu: 0, memory: 0 }`), association lists
computed by the resolvers. -/
def buildPodRecord (metricsMap : List (String × PodMetric))
    (pvcs configMaps secrets : List CatalogObject) (services : List Service)
    (ingresses : List Ingress) (pod : Pod) : PodRecord :=
  let metrics := (metricsMap.lookup pod.name).getD ⟨some 0, some 0⟩
  let podServices := findAssociatedServices pod services
  { id := pod.name
    name := pod.name
    cpuUsage := metrics.cpu
    memoryUsage := metrics.memory
    pvcs := findAssociatedResources pod pvcs
    configMaps := findAssociatedResources pod configMaps
    secrets := findAssociatedResources pod secrets
    services := podServices
    ingresses := findAssociatedIngresses podServices ingresses }

/-- `podsData.items.map(...)`: every listed pod yields exactly one record. -/
def buildPods (metricsMap : List (String × PodMetric))
    (pvcs configMaps secrets : List CatalogObject) (services : List Service)
    (ingresses : List Ingress) (pods : List Pod) : List PodRecord :=
  pods.map (buildPodRecord metricsMap pvcs configMaps secrets services ingresses)

/-- The namespace totals of getNamespaceDetails lines 317-319 / the POST
handler lines 253-255: the two reduces over the assembled pod records. -/
def namespaceTotals (pods : List PodRecord) : JsNum × JsNum :=
  (pods.foldl (fun sum pod => jsAdd sum pod.cpuUsage) (some 0),
   pods.foldl (fun sum pod => jsAdd sum pod.memoryUsage) (some 0))

/-! ## Auxiliary lemmas: decimal rendering round-trips through parseIntJS -/

theorem digitChar_isDigit {m : ℕ} (h : m < 10) : (Nat.digitChar m).isDigit = true := by
  interval_cases m <;> decide

theorem digitChar_val {m : ℕ} (h : m < 10) : (Nat.digitChar m).toNat - 48 = m := by
  interval_cases m <;> decide

theorem digit_not_ws {c : Char} (h : c.isDigit = true) : isWsChar c = false := by
  cases hc : isWsChar c with
  | false => rfl
  | true =>
    exfalso
    simp only [isWsChar, Bool.or_eq_true, decide_eq_true_eq] at hc
    rcases hc with ((rfl | rfl) | rfl) | rfl <;> exact absurd h (by decide)

theorem toDigitsCore_acc (b : ℕ) :
    ∀ (fuel n : ℕ) (acc : List Char),
      Nat.toDigitsCore b fuel n acc = Nat.toDigitsCore b fuel n [] ++ acc := by
  intro fuel
  induction fuel with
  | zero => intro n acc; simp [Nat.toDigitsCore]
  | succ f ih =>
    intro n acc
    simp only [Nat.toDigitsCore]
    by_cases h : n / b = 0
    · simp [h]
    · simp only [if_neg h]
      rw [ih (n / b) (Nat.digitChar (n % b) :: acc), ih (n / b) [Nat.digitChar (n % b)]]
      simp

theorem digitsVal_append_singleton (l : List Char) (c : Char) :
    digitsVal (l ++ [c]) = 10 * digitsVal l + (c.toNat - 48) := by
  simp [digitsVal, List.foldl_append]

theorem digitsVal_toDigitsCore :
    ∀ (fuel n : ℕ), n < fuel → digitsVal (Nat.toDigitsCore 10 fuel n []) = n := by
  intro fuel
  induction fuel with
  | zero => intro n h; omega
  | succ f ih =>
    intro n h
    simp only [Nat.toDigitsCore]
    by_cases h0 : n / 10 = 0
    · have hn : n < 10 := by omega
      simp only [if_pos h0]
      have hv : digitsVal [Nat.digitChar (n % 10)] = n % 10 := by
        have := digitChar_val (Nat.mod_lt n (show 0 < 10 by norm_num))
        simp [digitsVal]
        omega
      rw [hv, Nat.mod_eq_of_lt hn]
    · have hn10 : 10 ≤ n := by
        by_contra hlt
        exact h0 (Nat.div_eq_of_lt (by omega))
      have hdivlt : n / 10 < f := by
        have h1 : n / 10 < n := Nat.div_lt_self (by omega) (by norm_num)
        omega
      simp only [if_neg h0]
      rw [toDigitsCore_acc, digitsVal_append_singleton, ih (n / 10) hdivlt,
        digitChar_val (Nat.mod_lt n (by norm_num))]
      omega

theorem digitsVal_toDigits (n : ℕ) : digitsVal (Nat.toDigits 10 n) = n :=
  digitsVal_toDigitsCore (n + 1) n (Nat.lt_succ_self n)

theorem toDigits_all_digits :
    ∀ (fuel n : ℕ) (acc : List Char), (∀ c ∈ acc, c.isDigit = true) →
      ∀ c ∈ Nat.toDigitsCore 10 fuel n acc, c.isDigit = true := by
  intro fuel
  induction fuel with
  | zero => intro n acc hacc; simpa [Nat.toDigitsCore] using hacc
  | succ f ih =>
    intro n acc hacc c hc
    simp only [Nat.toDigitsCore] at hc
    by_cases h0 : n / 10 = 0
    · rw [if_pos h0] at hc
      rcases List.mem_cons.mp hc with rfl | hmem
      · exact digitChar_isDigit (Nat.mod_lt n (by norm_num))
      · exact hacc c hmem
    · rw [if_neg h0] at hc
      refine ih (n / 10) (Nat.digitChar (n % 10) :: acc) ?_ c hc
      intro d hd
      rcases List.mem_cons.mp hd with rfl | hmem
      · exact digitChar_isDigit (Nat.mod_lt n (by norm_num))
      · exact hacc d hmem

theorem toDigits_ne_nil (n : ℕ) : Nat.toDigits 10 n ≠ [] := by
  unfold Nat.toDigits
  simp only [Nat.toDigitsCore]
  by_cases h0 : n / 10 = 0
  · simp [h0]
  · rw [if_neg h0, toDigitsCore_acc]
    simp

theorem repr_data (n : ℕ) : (Nat.repr n).data = Nat.toDigits 10 n := rfl

theorem mk_data (s : String) : (⟨s.data⟩ : String) = s := rfl

theorem takeWhile_all {p : Char → Bool} {l : List Char} (h : ∀ c ∈ l, p c = true) :
    l.takeWhile p = l :=
  List.takeWhile_eq_self_iff.mpr h

theorem parseIntJS_digits (D : List Char) (h1 : D ≠ [])
    (h2 : ∀ c ∈ D, c.isDigit = true) :
    parseIntJS ⟨D⟩ = some ((digitsVal D : ℕ) : ℚ) := by
  obtain ⟨d, D', rfl⟩ := List.exists_cons_of_ne_nil h1
  have hd : d.isDigit = true := h2 d (List.mem_cons_self d D')
  have hdw : isWsChar d = false := digit_not_ws hd
  have hdrop : (d :: D').dropWhile isWsChar = d :: D' := by
    rw [List.dropWhile_cons, hdw]
    simp
  have hdm : d ≠ '-' := by rintro rfl; exact absurd hd (by decide)
  have hdp : d ≠ '+' := by rintro rfl; exact absurd hd (by decide)
  unfold parseIntJS
  have hdata : (String.mk (d :: D')).data = d :: D' := rfl
  rw [hdata, hdrop]
  simp only [List.head?_cons]
  rw [if_neg (by simpa using hdm), if_neg (by simpa using hdp)]
  rw [takeWhile_all h2]
  simp

theorem parseIntJS_repr (v : ℕ) : parseIntJS (Nat.repr v) = some (v : ℚ) := by
  have h : Nat.repr v = ⟨Nat.toDigits 10 v⟩ := rfl
  rw [h, parseIntJS_digits (Nat.toDigits 10 v) (toDigits_ne_nil v)
    (fun c hc => toDigits_all_digits (v + 1) v [] (by simp) c hc)]
  rw [digitsVal_toDigits]

/-! ## Auxiliary lemmas: suffix tests and slicing on rendered numerals -/

theorem jsEndsWith_append_self (s t : String) : jsEndsWith (s ++ t) t = true := by
  simp [jsEndsWith, String.data_append]

theorem jsDropRight_append (s t : String) (k : ℕ) (hk : t.data.length = k) :
    jsDropRight (s ++ t) k = s := by
  unfold jsDropRight
  rw [String.data_append]
  have hlen : (s.data ++ t.data).length - k = s.data.length := by
    simp [hk]
  rw [hlen, List.take_left]

theorem not_endsWith_digits (s : String) (h2 : ∀ c ∈ s.data, c.isDigit = true)
    (suf : String) (c : Char) (hc : c ∈ suf.data) (hcd : c.isDigit = false) :
    jsEndsWith s suf = false := by
  simp only [jsEndsWith, Bool.eq_false_iff, Ne, List.isSuffixOf_iff_suffix]
  intro hsuf
  have := h2 c (hsuf.subset hc)
  rw [this] at hcd
  exact Bool.true_eq_false.mp hcd

theorem append_pair_eq {α} {l₁ l₂ : List α} {a b c d : α}
    (h : l₁ ++ [a, b] = l₂ ++ [c, d]) : a = c ∧ b = d := by
  have h' := congrArg List.reverse h
  simp only [List.reverse_append, List.reverse_cons, List.reverse_nil,
    List.nil_append, List.cons_append, List.cons.injEq] at h'
  exact ⟨h'.2.1, h'.1⟩

theorem append_last_eq {α} {l₁ l₂ : List α} {a c : α}
    (h : l₁ ++ [a] = l₂ ++ [c]) : a = c := by
  have h1 : (l₁ ++ [a]).getLast? = (l₂ ++ [c]).getLast? := by rw [h]
  rw [List.getLast?_concat, List.getLast?_concat] at h1
  exact Option.some_inj.mp h1

theorem not_endsWith_pair (s suf tl : String) (a b c d : Char)
    (hsuf : suf.data = [a, b]) (htl : tl.data = [c, d]) (hne : a ≠ c) :
    jsEndsWith (s ++ tl) suf = false := by
  simp only [jsEndsWith, Bool.eq_false_iff, Ne, List.isSuffixOf_iff_suffix]
  rintro ⟨t, ht⟩
  rw [hsuf, String.data_append, htl] at ht
  exact hne (append_pair_eq ht).1

theorem not_endsWith_pair_single (s suf tl : String) (a b c : Char)
    (hsuf : suf.data = [a, b]) (htl : tl.data = [c]) (hne : b ≠ c) :
    jsEndsWith (s ++ tl) suf = false := by
  simp only [jsEndsWith, Bool.eq_false_iff, Ne, List.isSuffixOf_iff_suffix]
  rintro ⟨t, ht⟩
  rw [hsuf, String.data_append, htl] at ht
  have ht' : (t ++ [a]) ++ [b] = s.data ++ [c] := by
    simpa [List.append_assoc] using ht
  exact hne (append_last_eq ht')

theorem repr_digits (v : ℕ) : ∀ c ∈ (Nat.repr v).data, c.isDigit = true :=
  fun c hc => toDigits_all_digits (v + 1) v [] (by simp) c hc

/-! ## Field-level decoding lemmas on rendered numerals -/

theorem parseCpu_repr_m (v : ℕ) : parseCpu (Nat.repr v ++ "m") = some (v : ℚ) := by
  unfold parseCpu
  rw [if_pos (by rw [jsEndsWith_append_self]),
    jsDropRight_append (Nat.repr v) "m" 1 rfl, parseIntJS_repr]

theorem parseCpu_repr (v : ℕ) : parseCpu (Nat.repr v) = some ((v : ℚ) * 1000) := by
  unfold parseCpu
  rw [if_neg (by rw [not_endsWith_digits (Nat.repr v) (repr_digits v) "m" 'm'
      (by decide) (by decide)]; exact Bool.false_ne_true),
    parseIntJS_repr]
  have h : jsMulNat (some (v : ℚ)) 1000 = some ((v : ℚ) * ((1000 : ℕ) : ℚ)) := rfl
  rw [h]
  norm_num

theorem parseMemSA_repr_Mi (v : ℕ) : parseMemSA (Nat.repr v ++ "Mi") = some (v : ℚ) := by
  unfold parseMemSA
  rw [if_pos (by rw [jsEndsWith_append_self]),
    jsDropRight_append (Nat.repr v) "Mi" 2 rfl, parseIntJS_repr]

theorem parseMemSA_repr_Gi (v : ℕ) :
    parseMemSA (Nat.repr v ++ "Gi") = some ((v : ℚ) * 1024) := by
  unfold parseMemSA
  rw [if_neg (by rw [not_endsWith_pair _ "Mi" "Gi" 'M' 'i' 'G' 'i' rfl rfl
      (by decide)]; exact Bool.false_ne_true),
    if_pos (by rw [jsEndsWith_append_self]),
    jsDropRight_append (Nat.repr v) "Gi" 2 rfl, parseIntJS_repr]
  have h : jsMulNat (some (v : ℚ)) 1024 = some ((v : ℚ) * ((1024 : ℕ) : ℚ)) := rfl
  rw [h]
  norm_num

theorem floor_ratCast_div (v k : ℕ) :
    ⌊(v : ℚ) / ((k : ℕ) : ℚ)⌋ = ((v / k : ℕ) : ℤ) := by
  have h := Rat.floor_intCast_div_natCast (v : ℤ) k
  push_cast at h ⊢
  rw [h]

theorem parseMemSA_repr_Ki (v : ℕ) :
    parseMemSA (Nat.repr v ++ "Ki") = some ((v / 1024 : ℕ) : ℚ) := by
  unfold parseMemSA
  rw [if_neg (by rw [not_endsWith_pair _ "Mi" "Ki" 'M' 'i' 'K' 'i' rfl rfl
      (by decide)]; exact Bool.false_ne_true),
    if_neg (by rw [not_endsWith_pair _ "Gi" "Ki" 'G' 'i' 'K' 'i' rfl rfl
      (by decide)]; exact Bool.false_ne_true),
    if_pos (by rw [jsEndsWith_append_self]),
    jsDropRight_append (Nat.repr v) "Ki" 2 rfl, parseIntJS_repr]
  have h : jsFloor (jsDivNat (some (v : ℚ)) 1024) =
      some ((⌊(v : ℚ) / ((1024 : ℕ) : ℚ)⌋ : ℤ) : ℚ) := rfl
  rw [h, floor_ratCast_div v 1024]
  simp only [Int.cast_natCast]

theorem parseMemSA_repr_m (v : ℕ) : parseMemSA (Nat.repr v ++ "m") = some 0 := by
  unfold parseMemSA
  rw [if_neg (by rw [not_endsWith_pair_single _ "Mi" "m" 'M' 'i' 'm' rfl rfl
      (by decide)]; exact Bool.false_ne_true),
    if_neg (by rw [not_endsWith_pair_single _ "Gi" "m" 'G' 'i' 'm' rfl rfl
      (by decide)]; exact Bool.false_ne_true),
    if_neg (by rw [not_endsWith_pair_single _ "Ki" "m" 'K' 'i' 'm' rfl rfl
      (by decide)]; exact Bool.false_ne_true)]

theorem parseMemSA_repr_bytes (v : ℕ) : parseMemSA (Nat.repr v) = some 0 := by
  unfold parseMemSA
  rw [if_neg (by rw [not_endsWith_digits (Nat.repr v) (repr_digits v) "Mi" 'M'
      (by decide) (by decide)]; exact Bool.false_ne_true),
    if_neg (by rw [not_endsWith_digits (Nat.repr v) (repr_digits v) "Gi" 'G'
      (by decide) (by decide)]; exact Bool.false_ne_true),
    if_neg (by rw [not_endsWith_digits (Nat.repr v) (repr_digits v) "Ki" 'K'
      (by decide) (by decide)]; exact Bool.false_ne_true)]

theorem parseMemRoute_repr_Mi (v : ℕ) :
    parseMemRoute (Nat.repr v ++ "Mi") = some (v : ℚ) := by
  unfold parseMemRoute
  rw [if_pos (by rw [jsEndsWith_append_self]),
    jsDropRight_append (Nat.repr v) "Mi" 2 rfl, parseIntJS_repr]

theorem parseMemRoute_repr_Gi (v : ℕ) :
    parseMemRoute (Nat.repr v ++ "Gi") = some ((v : ℚ) * 1024) := by
  unfold parseMemRoute
  rw [if_neg (by rw [not_endsWith_pair _ "Mi" "Gi" 'M' 'i' 'G' 'i' rfl rfl
      (by decide)]; exact Bool.false_ne_true),
    if_pos (by rw [jsEndsWith_append_self]),
    jsDropRight_append (Nat.repr v) "Gi" 2 rfl, parseIntJS_repr]
  have h : jsMulNat (some (v : ℚ)) 1024 = some ((v : ℚ) * ((1024 : ℕ) : ℚ)) := rfl
  rw [h]
  norm_num

theorem parseMemRoute_repr_Ki (v : ℕ) :
    parseMemRoute (Nat.repr v ++ "Ki") = some ((v / 1024 : ℕ) : ℚ) := by
  unfold parseMemRoute
  rw [if_neg (by rw [not_endsWith_pair _ "Mi" "Ki" 'M' 'i' 'K' 'i' rfl rfl
      (by decide)]; exact Bool.false_ne_true),
    if_neg (by rw [not_endsWith_pair _ "Gi" "Ki" 'G' 'i' 'K' 'i' rfl rfl
      (by decide)]; exact Bool.false_ne_true),
    if_pos (by rw [jsEndsWith_append_self]),
    jsDropRight_append (Nat.repr v) "Ki" 2 rfl, parseIntJS_repr]
  have h : jsFloor (jsDivNat (some (v : ℚ)) 1024) =
      some ((⌊(v : ℚ) / ((1024 : ℕ) : ℚ)⌋ : ℤ) : ℚ) := rfl
  rw [h, floor_ratCast_div v 1024]
  simp only [Int.cast_natCast]

theorem parseMemRoute_repr_m (v : ℕ) :
    parseMemRoute (Nat.repr v ++ "m") = some ((v : ℚ) / 1024 / 1024) := by
  unfold parseMemRoute
  rw [if_neg (by rw [not_endsWith_pair_single _ "Mi" "m" 'M' 'i' 'm' rfl rfl
      (by decide)]; exact Bool.false_ne_true),
    if_neg (by rw [not_endsWith_pair_single _ "Gi" "m" 'G' 'i' 'm' rfl rfl
      (by decide)]; exact Bool.false_ne_true),
    if_neg (by rw [not_endsWith_pair_single _ "Ki" "m" 'K' 'i' 'm' rfl rfl
      (by decide)]; exact Bool.false_ne_true),
    if_pos (by rw [jsEndsWith_append_self]),
    jsDropRight_append (Nat.repr v) "m" 1 rfl, parseIntJS_repr]
  have h : jsDivNat (jsDivNat (some (v : ℚ)) 1024) 1024 =
      some ((v : ℚ) / ((1024 : ℕ) : ℚ) / ((1024 : ℕ) : ℚ)) := rfl
  rw [h]
  norm_num

theorem parseMemRoute_repr_bytes (v : ℕ) :
    parseMemRoute (Nat.repr v) = some ((v : ℚ) / 1024 / 1024) := by
  unfold parseMemRoute
  rw [if_neg (by rw [not_endsWith_digits (Nat.repr v) (repr_digits v) "Mi" 'M'
      (by decide) (by decide)]; exact Bool.false_ne_true),
    if_neg (by rw [not_endsWith_digits (Nat.repr v) (repr_digits v) "Gi" 'G'
      (by decide) (by decide)]; exact Bool.false_ne_true),
    if_neg (by rw [not_endsWith_digits (Nat.repr v) (repr_digits v) "Ki" 'K'
      (by decide) (by decide)]; exact Bool.false_ne_true),
    if_neg (by rw [not_endsWith_digits (Nat.repr v) (repr_digits v) "m" 'm'
      (by decide) (by decide)]; exact Bool.false_ne_true),
    parseIntJS_repr]
  have h : jsDivNat (jsDivNat (some (v : ℚ)) 1024) 1024 =
      some ((v : ℚ) / ((1024 : ℕ) : ℚ) / ((1024 : ℕ) : ℚ)) := rfl
  rw [h]
  norm_num

/-! ## Auxiliary lemmas: folds that only append, first-occurrence dedup -/

/-- Concatenation of the images of `g`, the shape every push-only fold of the
resolvers reduces to. -/
def concatMap {α γ : Type} (g : α → List γ) (l : List α) : List γ :=
  l.foldr (fun a r => g a ++ r) []

theorem concatMap_nil {α γ : Type} (g : α → List γ) : concatMap g [] = [] := rfl

theorem concatMap_cons {α γ : Type} (g : α → List γ) (a : α) (t : List α) :
    concatMap g (a :: t) = g a ++ concatMap g t := rfl

theorem mem_concatMap {α γ : Type} (g : α → List γ) (l : List α) (x : γ) :
    x ∈ concatMap g l ↔ ∃ a ∈ l, x ∈ g a := by
  induction l with
  | nil => simp [concatMap_nil]
  | cons a t ih => simp [concatMap_cons, ih, List.mem_append]

theorem concatMap_congr {α γ : Type} (g g' : α → List γ) (l : List α)
    (h : ∀ a ∈ l, g a = g' a) : concatMap g l = concatMap g' l := by
  induction l with
  | nil => rfl
  | cons a t ih =>
    rw [concatMap_cons, concatMap_cons, h a (List.mem_cons_self a t),
      ih (fun b hb => h b (List.mem_cons_of_mem a hb))]

theorem foldl_pushes {α γ : Type} (f : List γ → α → List γ) (g : α → List γ)
    (hf : ∀ r a, f r a = r ++ g a) :
    ∀ (l : List α) (init : List γ), l.foldl f init = init ++ concatMap g l := by
  intro l
  induction l with
  | nil => intro init; simp [concatMap_nil]
  | cons a t ih =>
    intro init
    rw [List.foldl_cons, hf, ih, concatMap_cons, List.append_assoc]

theorem concatMap_guard {α γ : Type} (p : α → Bool) (h : α → γ) (l : List α) :
    concatMap (fun a => if p a then [h a] else []) l = (l.filter p).map h := by
  induction l with
  | nil => rfl
  | cons a t ih =>
    rw [concatMap_cons, ih]
    by_cases hp : p a = true
    · rw [if_pos hp, List.filter_cons_of_pos hp, List.map_cons, List.singleton_append]
    · rw [if_neg hp, List.filter_cons_of_neg (by simpa using hp), List.nil_append]

theorem dedupFirst_aux_mem (l acc : List String) (x : String) :
    x ∈ l.foldl (fun acc y => if y ∈ acc then acc else acc ++ [y]) acc ↔
      x ∈ acc ∨ x ∈ l := by
  induction l generalizing acc with
  | nil => simp
  | cons a t ih =>
    simp only [List.foldl_cons]
    by_cases h : a ∈ acc
    · rw [if_pos h, ih, List.mem_cons]
      constructor
      · rintro (hx | hx)
        · exact Or.inl hx
        · exact Or.inr (Or.inr hx)
      · rintro (hx | rfl | hx)
        · exact Or.inl hx
        · exact Or.inl h
        · exact Or.inr hx
    · rw [if_neg h, ih, List.mem_append, List.mem_singleton, List.mem_cons]
      tauto

theorem mem_dedupFirst (l : List String) (x : String) :
    x ∈ dedupFirst l ↔ x ∈ l := by
  rw [dedupFirst, dedupFirst_aux_mem]
  simp

theorem dedupFirst_aux_nodup (l : List String) :
    ∀ acc : List String, acc.Nodup →
      (l.foldl (fun acc y => if y ∈ acc then acc else acc ++ [y]) acc).Nodup := by
  induction l with
  | nil => intro acc h; simpa
  | cons a t ih =>
    intro acc h
    simp only [List.foldl_cons]
    by_cases hmem : a ∈ acc
    · rw [if_pos hmem]; exact ih acc h
    · rw [if_neg hmem]
      refine ih (acc ++ [a]) ?_
      rw [List.nodup_append]
      exact ⟨h, List.nodup_singleton a, by simpa [List.disjoint_singleton] using hmem⟩

theorem dedupFirst_nodup (l : List String) : (dedupFirst l).Nodup :=
  dedupFirst_aux_nodup l [] List.nodup_nil

/-! ## Auxiliary lemmas: JS-number algebra -/

theorem jsAdd_comm (a b : JsNum) : jsAdd a b = jsAdd b a := by
  cases a <;> cases b <;> simp [jsAdd, add_comm]

theorem jsAdd_assoc (a b c : JsNum) : jsAdd (jsAdd a b) c = jsAdd a (jsAdd b c) := by
  cases a <;> cases b <;> cases c <;> simp [jsAdd, add_assoc]

theorem jsAdd_zero_left (a : JsNum) : jsAdd (some 0) a = a := by
  cases a <;> simp [jsAdd]

theorem jsAdd_none (a : JsNum) : jsAdd a none = none := by
  cases a <;> rfl

/-! ## Claim theorems -/

/-- C1, counterexample: the claim asserts that a per-pod memory field `vKi`
decodes to exactly v/1024 mebibytes with no flooring; but both per-pod
parsePodMetrics implementations floor the Ki division, so "1Ki" decodes to 0,
not 1/1024. -/
theorem C1_counterexample :
    parsePodMetricsSA "pod-1 100m 1Ki" = [("pod-1", ⟨some 100, some 0⟩)] ∧
    parsePodMetricsRoute "pod-1 100m 1Ki" = [("pod-1", ⟨some 100, some 0⟩)] ∧
    some (0 : ℚ) ≠ some ((1 : ℚ) / 1024) := by
  have hlines : splitLines (jsTrim "pod-1 100m 1Ki") = ["pod-1 100m 1Ki"] := by decide
  have htok : tokens "pod-1 100m 1Ki" = ["pod-1", "100m", "1Ki"] := by decide
  have hcpu : parseCpu "100m" = some 100 := by
    have h := parseCpu_repr_m 100
    rw [show (Nat.repr 100 ++ "m" : String) = "100m" by decide] at h
    simpa using h
  have hmemSA : parseMemSA "1Ki" = some 0 := by
    have h := parseMemSA_repr_Ki 1
    rw [show (Nat.repr 1 ++ "Ki" : String) = "1Ki" by decide] at h
    simpa using h
  have hmemRoute : parseMemRoute "1Ki" = some 0 := by
    have h := parseMemRoute_repr_Ki 1
    rw [show (Nat.repr 1 ++ "Ki" : String) = "1Ki" by decide] at h
    simpa using h
  refine ⟨?_, ?_, ?_⟩
  · rw [parsePodMetricsSA, parsePodMetricsWith, hlines, List.foldl_cons, List.foldl_nil, htok]
    simp [upsert, hcpu, hmemSA]
  · rw [parsePodMetricsRoute, parsePodMetricsWith, hlines, List.foldl_cons, List.foldl_nil, htok]
    simp [upsert, hcpu, hmemRoute]
  · intro h
    rw [Option.some_inj] at h
    norm_num at h

/-- C1, amended: a memory token `vKi` decodes to floor(v/1024) mebibytes in
every parser alike, the per-pod ones (both variants) included, as well as in
the namespace and node aggregates (whose memory branches are those of the
server-actions variant). -/
theorem C1_amended (v : ℕ) :
    parseMemSA (Nat.repr v ++ "Ki") = some ((v / 1024 : ℕ) : ℚ) ∧
    parseMemRoute (Nat.repr v ++ "Ki") = some ((v / 1024 : ℕ) : ℚ) ∧
    parseNamespaceMetrics "ns-pod 100m 2049Ki" = (some 100, some 2) ∧
    parseNodeMetricsSA "node-1 100m 2049Ki" = ⟨some 100, 4000, some 2, 16384⟩ := by
  have hlines : splitLines (jsTrim "ns-pod 100m 2049Ki") = ["ns-pod 100m 2049Ki"] := by decide
  have htok : tokens "ns-pod 100m 2049Ki" = ["ns-pod", "100m", "2049Ki"] := by decide
  have hlines2 : splitLines (jsTrim "node-1 100m 2049Ki") = ["node-1 100m 2049Ki"] := by decide
  have htok2 : tokens "node-1 100m 2049Ki" = ["node-1", "100m", "2049Ki"] := by decide
  have hcpu : parseCpu "100m" = some 100 := by
    have h := parseCpu_repr_m 100
    rw [show (Nat.repr 100 ++ "m" : String) = "100m" by decide] at h
    simpa using h
  have hmem : parseMemSA "2049Ki" = some 2 := by
    have h := parseMemSA_repr_Ki 2049
    rw [show (Nat.repr 2049 ++ "Ki" : String) = "2049Ki" by decide] at h
    simpa using h
  refine ⟨parseMemSA_repr_Ki v, parseMemRoute_repr_Ki v, ?_, ?_⟩
  · rw [parseNamespaceMetrics, hlines, List.foldl_cons, List.foldl_nil, htok]
    simp [hcpu, hmem, jsAdd_zero_left]
  · rw [parseNodeMetricsSA, parseNodeMetricsWith, hlines2, List.foldl_cons, List.foldl_nil, htok2]
    simp [hcpu, hmem, jsAdd_zero_left]

/-- C3, counterexample: the claim asserts that every per-pod memory decoder
treats a suffixless token as bytes over 1024 squared; the route decoder does
("1048576" gives 1 Mi), but the server-actions per-pod decoder has no byte
fallback and yields 0 for the same line, so the universal claim fails. -/
theorem C3_counterexample :
    parsePodMetricsSA "pod-1 100m 1048576" = [("pod-1", ⟨some 100, some 0⟩)] ∧
    parseMemRoute "1048576" = some 1 ∧
    some (0 : ℚ) ≠ some (1 : ℚ) := by
  have hlines : splitLines (jsTrim "pod-1 100m 1048576") = ["pod-1 100m 1048576"] := by decide
  have htok : tokens "pod-1 100m 1048576" = ["pod-1", "100m", "1048576"] := by decide
  have hcpu : parseCpu "100m" = some 100 := by
    have h := parseCpu_repr_m 100
    rw [show (Nat.repr 100 ++ "m" : String) = "100m" by decide] at h
    simpa using h
  have hmem : parseMemSA "1048576" = some 0 := by
    have h := parseMemSA_repr_bytes 1048576
    rw [show (Nat.repr 1048576 : String) = "1048576" by decide] at h
    exact h
  have hroute : parseMemRoute "1048576" = some 1 := by
    have h := parseMemRoute_repr_bytes 1048576
    rw [show (Nat.repr 1048576 : String) = "1048576" by decide] at h
    rw [h]
    norm_num
  refine ⟨?_, hroute, by simp⟩
  rw [parsePodMetricsSA, parsePodMetricsWith, hlines, List.foldl_cons, List.foldl_nil, htok]
  simp [upsert, hcpu, hmem]

/-- C3, amended: in the route per-pod decoder a memory token with no
Mi/Gi/Ki suffix is bytes divided by 1024 twice, and a trailing `m` is
likewise bytes divided by 1024 twice after stripping the `m`; the
server-actions per-pod decoder instead decodes both shapes to 0. -/
theorem C3_amended (v : ℕ) :
    parseMemRoute (Nat.repr v) = some ((v : ℚ) / 1024 / 1024) ∧
    parseMemRoute (Nat.repr v ++ "m") = some ((v : ℚ) / 1024 / 1024) ∧
    parseMemSA (Nat.repr v) = some 0 ∧
    parseMemSA (Nat.repr v ++ "m") = some 0 :=
  ⟨parseMemRoute_repr_bytes v, parseMemRoute_repr_m v,
    parseMemSA_repr_bytes v, parseMemSA_repr_m v⟩

/-- C5, counterexample: the claim asserts that an unparseable CPU field
decodes to exactly 0, never NaN; but `Number.parseInt` of non-numeric text is
NaN (modelled `none`), and the decoders propagate it, so the CPU of line
"pod-1 abc 100Mi" is NaN, not 0, and the namespace aggregate is NaN too. -/
theorem C5_counterexample :
    parsePodMetricsSA "pod-1 abc 100Mi" = [("pod-1", ⟨none, some 100⟩)] ∧
    parseNamespaceMetrics "pod-1 abc 100Mi" = (none, some 100) ∧
    (none : JsNum) ≠ some 0 := by
  have hlines : splitLines (jsTrim "pod-1 abc 100Mi") = ["pod-1 abc 100Mi"] := by decide
  have htok : tokens "pod-1 abc 100Mi" = ["pod-1", "abc", "100Mi"] := by decide
  have hcpu : parseCpu "abc" = none := by decide
  have hmem : parseMemSA "100Mi" = some 100 := by
    have h := parseMemSA_repr_Mi 100
    rw [show (Nat.repr 100 ++ "Mi" : String) = "100Mi" by decide] at h
    simpa using h
  refine ⟨?_, ?_, by simp⟩
  · rw [parsePodMetricsSA, parsePodMetricsWith, hlines, List.foldl_cons, List.foldl_nil, htok]
    simp [upsert, hcpu, hmem]
  · rw [parseNamespaceMetrics, hlines, List.foldl_cons, List.foldl_nil, htok]
    simp [hcpu, hmem, jsAdd_zero_left, jsAdd_none]

/-- C5, amended: for a field token with no recognized suffix whose text
parseInt cannot read, the CPU decoder yields NaN (which absorbs into any
aggregate sum), the server-actions memory decoder yields 0, and the route
memory decoder yields NaN; none of them raises. -/
theorem C5_amended (s : String)
    (hm : jsEndsWith s "m" = false) (hMi : jsEndsWith s "Mi" = false)
    (hGi : jsEndsWith s "Gi" = false) (hKi : jsEndsWith s "Ki" = false)
    (hp : parseIntJS s = none) :
    parseCpu s = none ∧ parseMemSA s = some 0 ∧ parseMemRoute s = none ∧
    (∀ x : JsNum, jsAdd x none = none) := by
  refine ⟨?_, ?_, ?_, jsAdd_none⟩
  · rw [parseCpu, if_neg (by rw [hm]; exact Bool.false_ne_true), hp]
    rfl
  · rw [parseMemSA, if_neg (by rw [hMi]; exact Bool.false_ne_true),
      if_neg (by rw [hGi]; exact Bool.false_ne_true),
      if_neg (by rw [hKi]; exact Bool.false_ne_true)]
  · rw [parseMemRoute, if_neg (by rw [hMi]; exact Bool.false_ne_true),
      if_neg (by rw [hGi]; exact Bool.false_ne_true),
      if_neg (by rw [hKi]; exact Bool.false_ne_true),
      if_neg (by rw [hm]; exact Bool.false_ne_true), hp]
    rfl

/-- C5, witness for the amended theorem at the concrete token "abc". -/
theorem C5_amended_witness :
    parseCpu "abc" = none ∧ parseMemSA "abc" = some 0 ∧ parseMemRoute "abc" = none :=
  ⟨(C5_amended "abc" (by decide) (by decide) (by decide) (by decide) (by decide)).1,
   (C5_amended "abc" (by decide) (by decide) (by decide) (by decide) (by decide)).2.1,
   (C5_amended "abc" (by decide) (by decide) (by decide) (by decide) (by decide)).2.2.1⟩

/-- C6: a CPU token `nm` decodes to exactly n millicores, a suffixless CPU
token to its value times 1000; toResourceQuantity("{n}m", "{n}Mi") is
{cpuMillicores n, memoryMebibytes n} and toResourceQuantity("2", "1Gi") is
{2000, 1024}. -/
theorem C6_thm (n : ℕ) :
    toResourceQuantity (Nat.repr n ++ "m") (Nat.repr n ++ "Mi") =
      ⟨some (n : ℚ), some (n : ℚ)⟩ ∧
    parseCpu (Nat.repr n) = some ((n : ℚ) * 1000) ∧
    parseMemSA (Nat.repr n ++ "Mi") = some (n : ℚ) ∧
    toResourceQuantity "2" "1Gi" = ⟨some 2000, some 1024⟩ := by
  refine ⟨?_, parseCpu_repr n, parseMemSA_repr_Mi n, ?_⟩
  · rw [toResourceQuantity, parseCpu_repr_m n, parseMemRoute_repr_Mi n]
  · have hcpu : parseCpu "2" = some 2000 := by
      have h := parseCpu_repr 2
      rw [show (Nat.repr 2 : String) = "2" by decide] at h
      rw [h]
      norm_num
    have hmem : parseMemRoute "1Gi" = some 1024 := by
      have h := parseMemRoute_repr_Gi 1
      rw [show (Nat.repr 1 ++ "Gi" : String) = "1Gi" by decide] at h
      simpa using h
    rw [toResourceQuantity, hcpu, hmem]

/-- C4: resolving config references for a requested kind — realized at the
call sites by handing findAssociatedResources the per-kind listing — returns
exactly the volume-referenced storage claim for kind StorageClaim and exactly
the env-referenced config set for kind ConfigSet, leaving the unrelated
`data-2` and the other-kind object out. -/
theorem C4_thm :
    resolveConfigRefs
      ⟨"pod-1", none, [VolumeRef.pvc "data-1"], [⟨[EnvRef.configMapKey "app-config"]⟩]⟩
      [⟨"data-1", ResKind.storageClaim⟩, ⟨"app-config", ResKind.configSet⟩,
        ⟨"data-2", ResKind.storageClaim⟩]
      ResKind.storageClaim = ["data-1"] ∧
    resolveConfigRefs
      ⟨"pod-1", none, [VolumeRef.pvc "data-1"], [⟨[EnvRef.configMapKey "app-config"]⟩]⟩
      [⟨"data-1", ResKind.storageClaim⟩, ⟨"app-config", ResKind.configSet⟩,
        ⟨"data-2", ResKind.storageClaim⟩]
      ResKind.configSet = ["app-config"] := by decide

/-- C2, counterexample: the claim asserts a service with a present but empty
selector is never associated; but `Object.entries({}).every(...)` is
vacuously true, so an empty-selector service matches every pod that has a
labels object. -/
theorem C2_counterexample :
    findAssociatedServices ⟨"pod-1", some [("app", "web")], [], []⟩
      [⟨"unselective", some [], []⟩] = ["unselective"] ∧
    (["unselective"] : List String) ≠ [] := by decide

/-- C2, amended: a service with a present selector matches a workload unit
precisely when every selector pair is present and equal in the unit's labels,
so a present-but-empty selector matches every unit that has a labels object
(vacuous conjunction); a unit without a labels object gets no service
associations at all. -/
theorem C2_amended (pod : Pod) (services : List Service) :
    findAssociatedServices pod services =
      (match pod.labels with
       | none => []
       | some labels =>
           (services.filter (fun svc =>
             match svc.selector with
             | none => false
             | some sel => selectorMatches sel labels)).map formatService) ∧
    (∀ (labels : List (String × String)) (svc : Service),
      pod.labels = some labels → svc.selector = some [] → svc ∈ services →
      formatService svc ∈ findAssociatedServices pod services) := by
  have heq : ∀ (labels : List (String × String)),
      pod.labels = some labels →
      findAssociatedServices pod services =
        (services.filter (fun svc =>
          match svc.selector with
          | none => false
          | some sel => selectorMatches sel labels)).map formatService := by
    intro labels hl
    simp only [findAssociatedServices, hl]
    rw [foldl_pushes
      (fun (result : List String) (service : Service) =>
        match service.selector with
        | none => result
        | some sel =>
            if selectorMatches sel labels then result ++ [formatService service]
            else result)
      (fun svc =>
        match svc.selector with
        | none => []
        | some sel => if selectorMatches sel labels then [formatService svc] else [])
      (by
        intro r a
        cases hsel : a.selector with
        | none => simp [hsel]
        | some sel => by_cases hm : selectorMatches sel labels = true <;> simp [hsel, hm])
      services []]
    rw [List.nil_append,
      concatMap_congr _
        (fun svc =>
          if (match svc.selector with
              | none => false
              | some sel => selectorMatches sel labels) then [formatService svc] else [])
        services
        (by
          intro a _
          cases hsel : a.selector with
          | none => simp [hsel]
          | some sel => simp [hsel]),
      concatMap_guard]
  constructor
  · cases hl : pod.labels with
    | none => simp only [findAssociatedServices, hl]
    | some labels => exact heq labels hl
  · intro labels svc hl hsel hmem
    rw [heq labels hl]
    refine List.mem_map_of_mem formatService (List.mem_filter.mpr ⟨hmem, ?_⟩)
    rw [hsel]
    rfl

/-- C2, witness for the amended theorem: a service with an empty selector and
a port is associated (formatted with its port) to a pod that has labels. -/
theorem C2_amended_witness :
    formatService ⟨"unselective", some [], [80]⟩ ∈
      findAssociatedServices ⟨"pod-1", some [("app", "web")], [], []⟩
        [⟨"unselective", some [], [80]⟩] :=
  (C2_amended ⟨"pod-1", some [("app", "web")], [], []⟩
      [⟨"unselective", some [], [80]⟩]).2
    [("app", "web")] ⟨"unselective", some [], [80]⟩ rfl rfl
    (List.mem_singleton.mpr rfl)

/-- C8: a volume or environment reference whose target name is absent from
the catalog is silently skipped: resolution of the pod with the dangling
reference inserted anywhere equals resolution without it, and no error value
of any kind exists (the resolver is a total function into lists). -/
theorem C8_thm :
    (∀ (name : String) (labels : Option (List (String × String)))
       (vs₁ vs₂ : List VolumeRef) (cs : List Container) (d : VolumeRef)
       (catalog : List CatalogObject),
       (∀ n, volTarget d = some n → catalog.any (fun r => r.name = n) = false) →
       findAssociatedResources ⟨name, labels, vs₁ ++ d :: vs₂, cs⟩ catalog =
         findAssociatedResources ⟨name, labels, vs₁ ++ vs₂, cs⟩ catalog) ∧
    (∀ (name : String) (labels : Option (List (String × String)))
       (vs : List VolumeRef) (cs₁ cs₂ : List Container) (es₁ es₂ : List EnvRef)
       (e : EnvRef) (catalog : List CatalogObject),
       (∀ n, envTarget e = some n → catalog.any (fun r => r.name = n) = false) →
       findAssociatedResources ⟨name, labels, vs, cs₁ ++ ⟨es₁ ++ e :: es₂⟩ :: cs₂⟩ catalog =
         findAssociatedResources ⟨name, labels, vs, cs₁ ++ ⟨es₁ ++ es₂⟩ :: cs₂⟩ catalog) := by
  constructor
  · intro name labels vs₁ vs₂ cs d catalog hd
    have hstep : ∀ r, volumeStep catalog r d = r := by
      intro r
      cases d with
      | pvc n => simp [volumeStep, hd n rfl]
      | configMap n => simp [volumeStep, hd n rfl]
      | secret n => simp [volumeStep, hd n rfl]
      | other => rfl
    have hv : (vs₁ ++ d :: vs₂).foldl (volumeStep catalog) [] =
        (vs₁ ++ vs₂).foldl (volumeStep catalog) [] := by
      rw [List.foldl_append, List.foldl_append, List.foldl_cons, hstep]
    simp only [findAssociatedResources]
    rw [hv]
  · intro name labels vs cs₁ cs₂ es₁ es₂ e catalog he
    have hstep : ∀ r, envStep catalog r e = r := by
      intro r
      cases e with
      | configMapKey n => simp [envStep, he n rfl]
      | secretKey n => simp [envStep, he n rfl]
      | plain => rfl
    have h2 : List.foldl (fun res c => c.env.foldl (envStep catalog) res)
        (vs.foldl (volumeStep catalog) []) (cs₁ ++ ⟨es₁ ++ e :: es₂⟩ :: cs₂) =
        List.foldl (fun res c => c.env.foldl (envStep catalog) res)
        (vs.foldl (volumeStep catalog) []) (cs₁ ++ ⟨es₁ ++ es₂⟩ :: cs₂) := by
      rw [List.foldl_append, List.foldl_append, List.foldl_cons, List.foldl_cons]
      congr 1
      show (es₁ ++ e :: es₂).foldl (envStep catalog) _ =
        (es₁ ++ es₂).foldl (envStep catalog) _
      rw [List.foldl_append, List.foldl_append, List.foldl_cons, hstep]
    simp only [findAssociatedResources]
    rw [h2]

/-- C8, witness: dropping a dangling volume reference to "ghost" leaves the
association list unchanged. -/
theorem C8_witness :
    findAssociatedResources
        ⟨"pod-1", none, [VolumeRef.pvc "ghost", VolumeRef.pvc "data-1"], []⟩
        [⟨"data-1", ResKind.storageClaim⟩] =
      findAssociatedResources ⟨"pod-1", none, [VolumeRef.pvc "data-1"], []⟩
        [⟨"data-1", ResKind.storageClaim⟩] :=
  C8_thm.1 "pod-1" none [] [VolumeRef.pvc "data-1"] [] (VolumeRef.pvc "ghost")
    [⟨"data-1", ResKind.storageClaim⟩]
    (fun n h => by cases h; decide)

/-- Helper: the per-field reading of the quantity fold. -/
theorem aggregate_field :
    ∀ (l : List ResourceQuantity) (init : ResourceQuantity),
      (l.foldl ResourceQuantity.add init).cpuMillicores =
        l.foldl (fun s q => jsAdd s q.cpuMillicores) init.cpuMillicores ∧
      (l.foldl ResourceQuantity.add init).memoryMebibytes =
        l.foldl (fun s q => jsAdd s q.memoryMebibytes) init.memoryMebibytes := by
  intro l
  induction l with
  | nil => intro init; exact ⟨rfl, rfl⟩
  | cons a t ih =>
    intro init
    rw [List.foldl_cons, List.foldl_cons, List.foldl_cons]
    exact ih (init.add a)

/-- C9: aggregation of quantities is per-field JS addition, commutative and
associative; the empty aggregate is {0,0}; aggregate [a,b,c] equals
aggregate [aggregate [a,b], c]; and the namespace totals computed by the two
reduces of the source equal the per-field aggregate of the pods' usages. -/
theorem C9_thm :
    aggregate [] = ResourceQuantity.zero ∧
    (∀ a b : ResourceQuantity, a.add b = b.add a) ∧
    (∀ a b c : ResourceQuantity, (a.add b).add c = a.add (b.add c)) ∧
    (∀ a b c : ResourceQuantity, aggregate [a, b, c] = aggregate [aggregate [a, b], c]) ∧
    (∀ pods : List PodRecord,
      (namespaceTotals pods).1 =
        (aggregate (pods.map (fun p => ⟨p.cpuUsage, p.memoryUsage⟩))).cpuMillicores ∧
      (namespaceTotals pods).2 =
        (aggregate (pods.map (fun p => ⟨p.cpuUsage, p.memoryUsage⟩))).memoryMebibytes) := by
  have hzero : ∀ x : ResourceQuantity, ResourceQuantity.zero.add x = x := by
    intro x
    cases x
    simp [ResourceQuantity.add, ResourceQuantity.zero, jsAdd_zero_left]
  refine ⟨rfl, ?_, ?_, ?_, ?_⟩
  · intro a b
    cases a
    cases b
    simp [ResourceQuantity.add, jsAdd_comm]
  · intro a b c
    cases a
    cases b
    cases c
    simp [ResourceQuantity.add, jsAdd_assoc]
  · intro a b c
    show ((ResourceQuantity.zero.add a).add b).add c =
      (ResourceQuantity.zero.add ((ResourceQuantity.zero.add a).add b)).add c
    conv_rhs => rw [hzero]
  · intro pods
    constructor
    · simp only [aggregate]
      rw [show (namespaceTotals pods).1 =
          pods.foldl (fun s p => jsAdd s p.cpuUsage) (some 0) from rfl,
        (aggregate_field (pods.map fun p => ⟨p.cpuUsage, p.memoryUsage⟩)
          ResourceQuantity.zero).1, List.foldl_map]
      rfl
    · simp only [aggregate]
      rw [show (namespaceTotals pods).2 =
          pods.foldl (fun s p => jsAdd s p.memoryUsage) (some 0) from rfl,
        (aggregate_field (pods.map fun p => ⟨p.cpuUsage, p.memoryUsage⟩)
          ResourceQuantity.zero).2, List.foldl_map]
      rfl

/-- C10: a pod absent from the parsed metrics map gets cpuUsage 0 and
memoryUsage 0, its association lists are computed normally, and it still
yields exactly one record in the assembled snapshot. -/
theorem C10_thm (metricsMap : List (String × PodMetric))
    (pvcs configMaps secrets : List CatalogObject) (services : List Service)
    (ingresses : List Ingress) (pods : List Pod) (pod : Pod)
    (habs : metricsMap.lookup pod.name = none) :
    (buildPodRecord metricsMap pvcs configMaps secrets services ingresses pod).cpuUsage
        = some 0 ∧
    (buildPodRecord metricsMap pvcs configMaps secrets services ingresses pod).memoryUsage
        = some 0 ∧
    (buildPodRecord metricsMap pvcs configMaps secrets services ingresses pod).pvcs
        = findAssociatedResources pod pvcs ∧
    (buildPodRecord metricsMap pvcs configMaps secrets services ingresses pod).configMaps
        = findAssociatedResources pod configMaps ∧
    (buildPodRecord metricsMap pvcs configMaps secrets services ingresses pod).secrets
        = findAssociatedResources pod secrets ∧
    (buildPodRecord metricsMap pvcs configMaps secrets services ingresses pod).services
        = findAssociatedServices pod services ∧
    (buildPodRecord metricsMap pvcs configMaps secrets services ingresses pod).ingresses
        = findAssociatedIngresses (findAssociatedServices pod services) ingresses ∧
    (pod ∈ pods →
      buildPodRecord metricsMap pvcs configMaps secrets services ingresses pod ∈
        buildPods metricsMap pvcs configMaps secrets services ingresses pods) ∧
    (buildPods metricsMap pvcs configMaps secrets services ingresses pods).length
        = pods.length := by
  refine ⟨?_, ?_, rfl, rfl, rfl, rfl, rfl, ?_, ?_⟩
  · simp [buildPodRecord, habs]
  · simp [buildPodRecord, habs]
  · intro hmem
    exact List.mem_map_of_mem _ hmem
  · simp [buildPods]

/-- C10, witness: a pod whose name is not a key of a nonempty metrics map
gets zero usages. -/
theorem C10_witness :
    (buildPodRecord [("other-pod", ⟨some 5, some 7⟩)] [] [] [] [] []
        ⟨"pod-1", none, [], []⟩).cpuUsage = some 0 ∧
    (buildPodRecord [("other-pod", ⟨some 5, some 7⟩)] [] [] [] [] []
        ⟨"pod-1", none, [], []⟩).memoryUsage = some 0 :=
  ⟨(C10_thm [("other-pod", ⟨some 5, some 7⟩)] [] [] [] [] [] []
      ⟨"pod-1", none, [], []⟩ (by decide)).1,
   (C10_thm [("other-pod", ⟨some 5, some 7⟩)] [] [] [] [] [] []
      ⟨"pod-1", none, [], []⟩ (by decide)).2.1⟩

/-- Helper: takeWhile passes over a fully-satisfying prefix. -/
theorem takeWhile_append_all {α : Type} {p : α → Bool} (l₁ l₂ : List α)
    (h : ∀ c ∈ l₁, p c = true) :
    (l₁ ++ l₂).takeWhile p = l₁ ++ l₂.takeWhile p := by
  induction l₁ with
  | nil => simp
  | cons a t ih =>
    rw [List.cons_append, List.takeWhile_cons, h a (List.mem_cons_self a t),
      ih (fun c hc => h c (List.mem_cons_of_mem a hc))]
    simp

/-- Helper: the triple push-only fold of findAssociatedIngresses flattened to
a concatMap over the per-path host contributions. -/
theorem findAssociatedIngresses_eq (sn : List String) (ings : List Ingress) :
    findAssociatedIngresses sn ings =
      dedupFirst (concatMap (fun ing =>
        concatMap (fun rule =>
          concatMap (fun path =>
            match path.backendServiceName with
            | some b =>
                if b ≠ "" ∧ b ∈ sn.map baseName then
                  match rule.host with
                  | some h => if h ≠ "" then [h] else []
                  | none => []
                else []
            | none => []) rule.paths) ing.rules) ings) := by
  have hf_inner : ∀ (rule : IngressRule) (r : List String) (path : IngressPath),
      pathStep (sn.map baseName) rule r path =
        r ++ (match path.backendServiceName with
          | some b =>
              if b ≠ "" ∧ b ∈ sn.map baseName then
                match rule.host with
                | some h => if h ≠ "" then [h] else []
                | none => []
              else []
          | none => []) := by
    intro rule r path
    cases hb : path.backendServiceName with
    | none => simp [pathStep, hb]
    | some b =>
      simp only [pathStep, hb]
      by_cases hcond : b ≠ "" ∧ b ∈ sn.map baseName
      · rw [if_pos hcond, if_pos hcond]
        cases hh : rule.host with
        | none => simp
        | some h => by_cases hhe : h ≠ "" <;> simp [hhe]
      · rw [if_neg hcond, if_neg hcond]
        simp
  have hf_mid : ∀ (r : List String) (rule : IngressRule),
      rule.paths.foldl (pathStep (sn.map baseName) rule) r =
        r ++ concatMap (fun path =>
          match path.backendServiceName with
          | some b =>
              if b ≠ "" ∧ b ∈ sn.map baseName then
                match rule.host with
                | some h => if h ≠ "" then [h] else []
                | none => []
              else []
          | none => []) rule.paths := by
    intro r rule
    exact foldl_pushes (pathStep (sn.map baseName) rule) _ (hf_inner rule) rule.paths r
  have hf_outer : ∀ (r : List String) (ing : Ingress),
      ing.rules.foldl
          (fun res rule => rule.paths.foldl (pathStep (sn.map baseName) rule) res) r =
        r ++ concatMap (fun rule =>
          concatMap (fun path =>
            match path.backendServiceName with
            | some b =>
                if b ≠ "" ∧ b ∈ sn.map baseName then
                  match rule.host with
                  | some h => if h ≠ "" then [h] else []
                  | none => []
                else []
            | none => []) rule.paths) ing.rules := by
    intro r ing
    exact foldl_pushes _ _ (fun r rule => hf_mid r rule) ing.rules r
  simp only [findAssociatedIngresses]
  congr 1
  rw [foldl_pushes _ _ (fun r ing => hf_outer r ing) ings []]
  simp

/-- Helper: a host appears among the resolved ingresses exactly when it is
nonempty and some rule of some ingress carries it together with a path whose
present nonempty backend name is among the stripped service base names. -/
theorem mem_findAssociatedIngresses (sn : List String) (ings : List Ingress)
    (h : String) :
    h ∈ findAssociatedIngresses sn ings ↔
      h ≠ "" ∧ ∃ ing ∈ ings, ∃ rule ∈ ing.rules, rule.host = some h ∧
        ∃ p ∈ rule.paths, ∃ b, p.backendServiceName = some b ∧ b ≠ "" ∧
          b ∈ sn.map baseName := by
  rw [findAssociatedIngresses_eq, mem_dedupFirst, mem_concatMap]
  constructor
  · rintro ⟨ing, hing, hmem1⟩
    rw [mem_concatMap] at hmem1
    obtain ⟨rule, hrule, hmem2⟩ := hmem1
    rw [mem_concatMap] at hmem2
    obtain ⟨path, hpath, hmem3⟩ := hmem2
    cases hb : path.backendServiceName with
    | none => rw [hb] at hmem3; simp at hmem3
    | some b =>
      rw [hb] at hmem3
      have hmem3' : h ∈ (if b ≠ "" ∧ b ∈ sn.map baseName then
          (match rule.host with
           | some hst => if hst ≠ "" then [hst] else []
           | none => ([] : List String))
          else []) := hmem3
      by_cases hcond : b ≠ "" ∧ b ∈ sn.map baseName
      · rw [if_pos hcond] at hmem3'
        cases hh : rule.host with
        | none => rw [hh] at hmem3'; simp at hmem3'
        | some hst =>
          rw [hh] at hmem3'
          have hmem4 : h ∈ (if hst ≠ "" then [hst] else []) := hmem3'
          by_cases hhe : hst ≠ ""
          · rw [if_pos hhe, List.mem_singleton] at hmem4
            subst hmem4
            exact ⟨hhe, ing, hing, rule, hrule, hh, path, hpath, b, hb, hcond.1, hcond.2⟩
          · rw [if_neg hhe] at hmem4
            simp at hmem4
      · rw [if_neg hcond] at hmem3'
        simp at hmem3'
  · rintro ⟨hne, ing, hing, rule, hrule, hhost, path, hpath, b, hb, hbne, hbmem⟩
    refine ⟨ing, hing, ?_⟩
    rw [mem_concatMap]
    refine ⟨rule, hrule, ?_⟩
    rw [mem_concatMap]
    refine ⟨path, hpath, ?_⟩
    rw [hb]
    show h ∈ (if b ≠ "" ∧ b ∈ sn.map baseName then
        (match rule.host with
         | some hst => if hst ≠ "" then [hst] else []
         | none => ([] : List String))
        else [])
    rw [if_pos ⟨hbne, hbmem⟩, hhost]
    show h ∈ (if h ≠ "" then [h] else [])
    rw [if_pos hne]
    exact List.mem_singleton.mpr rfl

/-- C7: a matching service is rendered as its bare name without ports and as
name:port1,port2,... with ports in declared order otherwise; stripping the
text after the first colon recovers the name (for colon-free names); a rule's
host is resolved exactly when it is present (nonempty) and some path backend
equals a stripped base name; and the resolved host list is duplicate-free. -/
theorem C7_thm :
    (∀ (name : String) (sel : Option (List (String × String))),
      formatService ⟨name, sel, []⟩ = name) ∧
    (∀ (name : String) (sel : Option (List (String × String))) (ports : List ℕ),
      ports ≠ [] →
      formatService ⟨name, sel, ports⟩ =
        name ++ ":" ++ String.intercalate "," (ports.map (fun p => Nat.repr p))) ∧
    (∀ (name : String) (sel : Option (List (String × String))) (ports : List ℕ),
      (∀ c ∈ name.data, c ≠ ':') →
      baseName (formatService ⟨name, sel, ports⟩) = name) ∧
    (∀ (serviceNames : List String) (ingresses : List Ingress) (h : String),
      h ∈ findAssociatedIngresses serviceNames ingresses ↔
        h ≠ "" ∧ ∃ ing ∈ ingresses, ∃ rule ∈ ing.rules, rule.host = some h ∧
          ∃ p ∈ rule.paths, ∃ b, p.backendServiceName = some b ∧ b ≠ "" ∧
            b ∈ serviceNames.map baseName) ∧
    (∀ (serviceNames : List String) (ingresses : List Ingress),
      (findAssociatedIngresses serviceNames ingresses).Nodup) := by
  refine ⟨?_, ?_, ?_, mem_findAssociatedIngresses, ?_⟩
  · intro name sel
    simp [formatService]
  · intro name sel ports hp
    rw [formatService]
    rw [if_pos (by simpa [List.length_pos] using hp)]
  · intro name sel ports hnc
    have hall : ∀ c ∈ name.data, (fun c => decide (c ≠ ':')) c = true :=
      fun c hc => decide_eq_true (hnc c hc)
    rw [formatService]
    by_cases hp : ports.length > 0
    · rw [if_pos hp, baseName]
      have hdata : (name ++ ":" ++
          String.intercalate "," (ports.map (fun p => Nat.repr p))).data =
          name.data ++ ':' ::
            (String.intercalate "," (ports.map (fun p => Nat.repr p))).data := by
        simp [String.data_append]
      rw [hdata, takeWhile_append_all name.data _ hall, List.takeWhile_cons]
      simp
    · rw [if_neg hp, baseName, takeWhile_all hall]
  · intro serviceNames ingresses
    simp only [findAssociatedIngresses]
    exact dedupFirst_nodup _

/-- C7, witness: svc1 with ports 80 and 443 formats as "svc1:80,443", its
base name is recovered, and an ingress rule backed by svc1 with host
example.com resolves to that host. -/
theorem C7_witness :
    formatService ⟨"svc1", none, [80, 443]⟩ = "svc1:80,443" ∧
    baseName (formatService ⟨"svc1", none, [80, 443]⟩) = "svc1" ∧
    "example.com" ∈ findAssociatedIngresses ["svc1:80,443"]
      [⟨[⟨some "example.com", [⟨some "svc1"⟩]⟩]⟩] := by
  refine ⟨?_, ?_, ?_⟩
  · have h := C7_thm.2.1 "svc1" none [80, 443] (by decide)
    rw [h]
    decide
  · exact C7_thm.2.2.1 "svc1" none [80, 443] (by decide)
  · refine (C7_thm.2.2.2.1 ["svc1:80,443"]
      [⟨[⟨some "example.com", [⟨some "svc1"⟩]⟩]⟩] "example.com").mpr
      ⟨by decide, ⟨[⟨some "example.com", [⟨some "svc1"⟩]⟩]⟩,
        List.mem_singleton.mpr rfl,
        ⟨some "example.com", [⟨some "svc1"⟩]⟩, List.mem_singleton.mpr rfl, rfl,
        ⟨some "svc1"⟩, List.mem_singleton.mpr rfl,
        "svc1", rfl, by decide, by decide⟩
